import Mathlib

set_option maxRecDepth 100000
set_option maxHeartbeats 1000000

/-!
Verification of the `bsutil` blockstore merge tool (`src/main.go`).

The development shallowly embeds the three core functions of the program —
`transferBlocks`, `cmdMerge` and `dirSize` — as executable Lean functions.
The external store library is modelled at its interface boundary:

* a source blockstore is its contents, an association list from content
  identifier to payload, enumerated in list order (`AllKeysChan`);
* `Get` is lookup in that association list (`none` models a failed get);
* the destination blockstore is the list of blocks persisted by `PutMany`
  calls, in write order; a `PutMany` failure is injected by a boolean
  oracle indexed by the number of already-completed `PutMany` calls;
* `Create`/`Open`/`Sync`/`Close` successes are boolean oracles, and the
  orchestrator records every store operation it performs in an event trace.

State that the imperative code only observes (the keys `Get` was called on,
the maximal buffer occupancy) is carried in ghost fields of the transfer
state; they influence no control-flow decision.
-/

/-- A block: a content identifier paired with its raw byte payload
(`go-block-format`: `Cid()` and `RawData()`). Bytes are modelled as `Nat`. -/
structure Block where
  cid : Nat
  rawData : List Nat
deriving Repr, DecidableEq

/-- The contents of a source blockstore: an association list from content
identifier to payload.  Key enumeration (`AllKeysChan`) yields the keys in
list order. -/
abbrev Store := List (Nat × List Nat)

/-- Models `from.Get(ctx, cid)` (main.go:166): look the key up in the source
store; `none` models the error return. -/
def storeGet (src : Store) (k : Nat) : Option Block :=
  (src.find? (fun p => p.1 == k)).map (fun p => ⟨p.1, p.2⟩)

/-- The block a successful `Get` returns for key `k` (defaulted when the
get would fail; only used at keys where `storeGet` is `some`). -/
def fetch (src : Store) (k : Nat) : Block :=
  (storeGet src k).getD ⟨k, []⟩

/-- Total payload bytes of the blocks fetched for the keys `l`. -/
def sumLens (src : Store) (l : List Nat) : Nat :=
  (l.map (fun k => (fetch src k).rawData.length)).sum

/-- The state threaded through the `for cid := range allLMDBKeys` loop of
`transferBlocks` (main.go:159-180).  `src` is the source store (read only),
`dst` the destination contents (grown by each `PutMany`), `buffer` the
in-memory batch, `progress` the total advanced on the progress bar via
`bar.Add`, `flushes` the number of completed `PutMany` calls.  `fetched`
(the keys `Get` was invoked on, in order) and `maxBuf` (the largest batch
ever held) are ghost observation fields. -/
structure TState where
  src : Store
  dst : List Block
  buffer : List Block
  progress : Nat
  flushes : Nat
  fetched : List Nat
  maxBuf : Nat
deriving Repr, DecidableEq

/-- Outcome of `transferBlocks`: Go's `nil` return or an error return.
Both carry the state at that point (persisted destination writes remain). -/
inductive TOutcome where
  | ok : TState → TOutcome
  | err : String → TState → TOutcome
deriving Repr, DecidableEq

/-- The state carried by either outcome. -/
def TOutcome.state : TOutcome → TState
  | .ok s => s
  | .err _ s => s

/-- Whether the outcome is an error return. -/
def TOutcome.isErr : TOutcome → Bool
  | .ok _ => false
  | .err _ _ => true

/-- The `for cid := range allLMDBKeys` loop of `transferBlocks`
(main.go:165-180): get the block (error aborts), append it to the buffer,
flush via `PutMany` once the buffer holds at least 100 blocks (error
aborts, with the batch still buffered) and clear the buffer, then advance
the progress bar by the payload length.  Note `bar.Add` runs after the
flush step, so a block whose flush fails is never counted. -/
def transferLoop (putOk : Nat → Bool) : List Nat → TState → TOutcome
  | [], s => .ok s
  | k :: ks, s =>
    match storeGet s.src k with
    | none => .err "could not get expected block" { s with fetched := s.fetched ++ [k] }
    | some b =>
      if 100 ≤ (s.buffer ++ [b]).length then
        if putOk s.flushes then
          transferLoop putOk ks
            { s with
              buffer := [],
              dst := s.dst ++ (s.buffer ++ [b]),
              progress := s.progress + b.rawData.length,
              flushes := s.flushes + 1,
              fetched := s.fetched ++ [k],
              maxBuf := max s.maxBuf (s.buffer ++ [b]).length }
        else
          .err "could not write block"
            { s with
              buffer := s.buffer ++ [b],
              fetched := s.fetched ++ [k],
              maxBuf := max s.maxBuf (s.buffer ++ [b]).length }
      else
        transferLoop putOk ks
          { s with
            buffer := s.buffer ++ [b],
            progress := s.progress + b.rawData.length,
            fetched := s.fetched ++ [k],
            maxBuf := max s.maxBuf (s.buffer ++ [b]).length }

/-- The initial transfer state: `var buffer []blocks.Block` (main.go:159)
over source contents `src` and current destination contents `dst`. -/
def initState (src : Store) (dst : List Block) : TState :=
  ⟨src, dst, [], 0, 0, [], 0⟩

/-- `transferBlocks` (main.go:147-183).  `keysChan` is the result of
`from.AllKeysChan` (`none` models its error return); `putOk n` tells
whether the `n`-th `PutMany` call on the destination succeeds. -/
def transferBlocks (putOk : Nat → Bool) (keysChan : Option (List Nat))
    (src : Store) (dst : List Block) : TOutcome :=
  match keysChan with
  | none => .err "could not get all lmdb keys channel" (initState src dst)
  | some keys => transferLoop putOk keys (initState src dst)

/-- An on-disk file tree, as visited by `filepath.Walk` in `dirSize`
(main.go:185-197): a regular file with a size, a directory with children
(visited in order), or an entry whose visit reports an error. -/
inductive FSTree where
  | file : Nat → FSTree
  | dir : List FSTree → FSTree
  | ioError : FSTree

mutual

/-- `dirSize` (main.go:185-197): `filepath.Walk` summing `info.Size()` over
non-directory entries; any walk error aborts the walk and is returned. -/
def dirSize : FSTree → Except String Nat
  | .file n => .ok n
  | .ioError => .error "walk failed"
  | .dir cs => dirSizeList cs

/-- The walk over a directory's children, left to right, aborting at the
first error. -/
def dirSizeList : List FSTree → Except String Nat
  | [] => .ok 0
  | t :: ts =>
    match dirSize t with
    | .error e => .error e
    | .ok a =>
      match dirSizeList ts with
      | .error e => .error e
      | .ok b => .ok (a + b)

end

mutual

/-- Follows the spec's words (§4.2): the sum of the sizes of all regular
files under the path, skipping directory entries. -/
def totalFileSize : FSTree → Nat
  | .file n => n
  | .ioError => 0
  | .dir cs => totalFileSizeList cs

/-- Sum of `totalFileSize` over a list of children. -/
def totalFileSizeList : List FSTree → Nat
  | [] => 0
  | t :: ts => totalFileSize t + totalFileSizeList ts

end

mutual

/-- Whether the walk of the tree encounters an entry that reports an error
(so that the walk cannot complete). -/
def hasIOError : FSTree → Bool
  | .file _ => false
  | .ioError => true
  | .dir cs => hasIOErrorList cs

/-- `hasIOError` over a list of children. -/
def hasIOErrorList : List FSTree → Bool
  | [] => false
  | t :: ts => hasIOError t || hasIOErrorList ts

end

/-- A source store as the merge loop sees it: whether `flatfs.Open`
succeeds, the on-disk tree walked by `dirSize`, the result of
`AllKeysChan` (`none` models its error), the store contents, and whether
`inputDS.Close()` succeeds (its failure is only printed, main.go:128-130,
so the model records the event and continues either way). -/
structure Source where
  openOk : Bool
  tree : FSTree
  keysChan : Option (List Nat)
  store : Store
  closeOk : Bool

/-- The destination store's environment: whether `flatfs.Create`,
`flatfs.Open`, `Sync` and `Close` succeed, and `putOk i n` — whether the
`n`-th `PutMany` call made while transferring source `i` succeeds. -/
structure Dest where
  createOk : Bool
  openOk : Bool
  putOk : Nat → Nat → Bool
  syncOk : Bool
  closeOk : Bool

/-- A store operation performed by `cmdMerge`, recorded in order. -/
inductive MEvent where
  | createOut : MEvent
  | openOut : MEvent
  | openIn : Nat → MEvent
  | estimateIn : Nat → MEvent
  | transferIn : Nat → MEvent
  | closeIn : Nat → MEvent
  | syncOut : MEvent
  | closeOut : MEvent
deriving Repr, DecidableEq

/-- Result of a merge run: the error returned (`none` = success), the
destination contents, the ordered trace of store operations performed, and
the per-source size estimates computed. -/
structure MergeResult where
  res : Option String
  dst : List Block
  trace : List MEvent
  ests : List Nat
deriving Repr, DecidableEq

/-- The `for i, inputPath := range inputs` loop of `cmdMerge`
(main.go:109-131) followed by the finalization (main.go:133-140): open each
source (error aborts), estimate its size with `dirSize` (error aborts),
transfer its blocks (error aborts), close it (failure only printed); after
the last source, `Sync` the destination (error aborts, `Close` is then
never reached) and then `Close` it (error returned). -/
def cmdMergeLoop (d : Dest) :
    List Source → Nat → List Block → List MEvent → List Nat → MergeResult
  | [], _, dst, tr, ests =>
    if d.syncOk then
      if d.closeOk then ⟨none, dst, tr ++ [.syncOut, .closeOut], ests⟩
      else ⟨some "close output failed", dst, tr ++ [.syncOut, .closeOut], ests⟩
    else ⟨some "sync output failed", dst, tr ++ [.syncOut], ests⟩
  | s :: rest, i, dst, tr, ests =>
    if s.openOk then
      match dirSize s.tree with
      | .error e => ⟨some e, dst, tr ++ [.openIn i, .estimateIn i], ests⟩
      | .ok sz =>
        match transferBlocks (d.putOk i) s.keysChan s.store dst with
        | .err m st =>
          ⟨some m, st.dst, tr ++ [.openIn i, .estimateIn i, .transferIn i], ests ++ [sz]⟩
        | .ok st =>
          cmdMergeLoop d rest (i + 1) st.dst
            (tr ++ [.openIn i, .estimateIn i, .transferIn i, .closeIn i]) (ests ++ [sz])
    else ⟨some "could not open input", dst, tr ++ [.openIn i], ests⟩

/-- `cmdMerge` (main.go:89-145): create the destination layout (error
aborts), open the destination (error aborts), only then reject an empty
input list, then run the per-source loop over a fresh (empty) destination.
-/
def cmdMerge (d : Dest) (inputs : List Source) : MergeResult :=
  if d.createOk then
    if d.openOk then
      if inputs.length = 0 then
        ⟨some "at least one input is required", [], [.createOut, .openOut], []⟩
      else
        cmdMergeLoop d inputs 0 [] [.createOut, .openOut] []
    else ⟨some "could not open output", [], [.createOut, .openOut], []⟩
  else ⟨some "could not open output blockstore", [], [.createOut], []⟩

/-- Whether the per-source phase of the merge processes every source
successfully: each source in turn opens, has its size estimated, and has
its blocks transferred without error, over the accumulating destination
contents — mirroring the control flow of the loop in main.go:109-131. -/
def sourcesOk (d : Dest) : List Source → Nat → List Block → Bool
  | [], _, _ => true
  | s :: rest, i, dst =>
    if s.openOk then
      match dirSize s.tree with
      | .error _ => false
      | .ok _ =>
        match transferBlocks (d.putOk i) s.keysChan s.store dst with
        | .err _ _ => false
        | .ok st => sourcesOk d rest (i + 1) st.dst
    else false

/-- Modelled from the spec: the on-disk footprint of a source blockstore
holding zero blocks.  The store library's layout is external to the
repository; §3 defines the size estimate as a recursive walk of the
store's path, and §8's empty-source property expects that walk to report
zero bytes, so the empty store's footprint is modelled as an empty
directory. -/
def emptyStoreTree : FSTree := .dir []

/-- `Get` against the destination's persisted contents, for comparing the
merged store with its source (first write for a key wins a lookup). -/
def blockGet (l : List Block) (k : Nat) : Option Block :=
  l.find? (fun b => b.cid == k)

/-- Pair-to-block conversion: the block stored for an association-list
entry of a source store. -/
def toBlock (p : Nat × List Nat) : Block := ⟨p.1, p.2⟩

/-- Appending one element and dropping the last gives the list back. -/
lemma dropLast_snoc {α : Type} (l : List α) (a : α) : (l ++ [a]).dropLast = l := by
  simp

/-- Total fetched bytes over a snoc of key lists. -/
lemma sumLens_snoc (src : Store) (l : List Nat) (k : Nat) :
    sumLens src (l ++ [k]) = sumLens src l + (fetch src k).rawData.length := by
  simp [sumLens]

/-- A successful get returns the block `fetch` denotes. -/
lemma fetch_eq_of_storeGet (src : Store) (k : Nat) (b : Block)
    (h : storeGet src k = some b) : fetch src k = b := by
  simp [fetch, h]

/-- A block returned by a successful get carries the key it was fetched for. -/
lemma cid_fetch_of_isSome (src : Store) (k : Nat)
    (h : (storeGet src k).isSome = true) : (fetch src k).cid = k := by
  unfold fetch
  cases hf : src.find? (fun p => p.1 == k) with
  | none => simp [storeGet, hf] at h
  | some p =>
    have hp := List.find?_some hf
    simp only [beq_iff_eq] at hp
    simp [storeGet, hf, hp]

/-- Keys enumerated from a store can all be fetched. -/
lemma storeGet_isSome_of_mem (src : Store) (k : Nat) (h : k ∈ src.map Prod.fst) :
    (storeGet src k).isSome = true := by
  induction src with
  | nil => simp at h
  | cons p rest ih =>
    simp only [List.map_cons, List.mem_cons] at h
    unfold storeGet
    rcases h with h | h
    · simp [List.find?_cons, h]
    · rw [List.find?_cons]
      cases hpk : p.1 == k with
      | true => simp
      | false => exact ih h

/-- The loop invariant of `transferLoop`, at loop entry, relative to the
destination contents `d0` and progress `p0` the loop started from: the
buffer holds fewer than 100 blocks, the destination holds `d0` plus the
full flushed batches (100 blocks per completed flush), the buffer holds
the fetched blocks not yet flushed, the progress counted every fetched
block, and every fetched key's get succeeded. -/
def LoopInv (d0 : List Block) (p0 : Nat) (src : Store) (s : TState) : Prop :=
  s.src = src ∧
  s.buffer.length ≤ 99 ∧
  s.maxBuf ≤ 100 ∧
  s.dst = d0 ++ (s.fetched.map (fetch src)).take (100 * s.flushes) ∧
  s.buffer = (s.fetched.map (fetch src)).drop (100 * s.flushes) ∧
  s.fetched.length = 100 * s.flushes + s.buffer.length ∧
  s.progress = p0 + sumLens src s.fetched ∧
  ∀ k ∈ s.fetched, (storeGet src k).isSome = true

/-- What holds of the state an error return carries: the destination holds
`d0` plus exactly the completed flushed batches, the progress counted
every fetched block except the last fetched key (the one whose get or
flush failed), and every fetched key but the last was fetched
successfully. -/
def LoopErrInv (d0 : List Block) (p0 : Nat) (src : Store) (s : TState) : Prop :=
  s.src = src ∧
  s.maxBuf ≤ 100 ∧
  s.dst = d0 ++ (s.fetched.dropLast.map (fetch src)).take (100 * s.flushes) ∧
  s.dst.length = d0.length + 100 * s.flushes ∧
  s.progress = p0 + sumLens src s.fetched.dropLast ∧
  s.fetched ≠ [] ∧
  ∀ k ∈ s.fetched.dropLast, (storeGet src k).isSome = true

/-- The initial state of `transferBlocks` satisfies the loop invariant
relative to the destination contents and zero progress. -/
lemma LoopInv_init (src : Store) (dst0 : List Block) : LoopInv dst0 0 src (initState src dst0) := by
  refine ⟨rfl, by simp [initState], by simp [initState], by simp [initState],
    by simp [initState], by simp [initState], by simp [initState, sumLens], ?_⟩
  intro k hk
  simp [initState] at hk

example : dirSize (.dir [.file 3, .dir [.file 4, .file 5], .file 6]) = .ok 18 := rfl
example : dirSize (.dir [.file 3, .dir [.ioError, .file 5]]) = .error "walk failed" := rfl
example :
    (transferBlocks (fun _ => true) (some [0, 1]) [(0, [9]), (1, [8])] []).state.dst = [] := by
  decide
example :
    (transferBlocks (fun _ => true) (some [0, 1]) [(0, [9]), (1, [8])] []).state.progress = 2 := by
  decide

/-- Master characterization of the transfer loop: from any entry state
satisfying the loop invariant, a normal return preserves the invariant and
fetches exactly the remaining keys in order; an error return satisfies
`LoopErrInv` and has fetched exactly a non-empty prefix of the remaining
keys (the last of which is the failing call), with no further key fetched.
-/
lemma transferLoop_master (putOk : Nat → Bool) (d0 : List Block) (p0 : Nat) (src : Store) :
    ∀ (keys : List Nat) (s : TState), LoopInv d0 p0 src s →
      (∀ s', transferLoop putOk keys s = .ok s' →
        LoopInv d0 p0 src s' ∧ s'.fetched = s.fetched ++ keys) ∧
      (∀ m s', transferLoop putOk keys s = .err m s' →
        LoopErrInv d0 p0 src s' ∧
        ∃ j, 1 ≤ j ∧ j ≤ keys.length ∧ s'.fetched = s.fetched ++ keys.take j) := by
  intro keys
  induction keys with
  | nil =>
    intro s hI
    constructor
    · intro s' h
      have hss : s = s' := by simpa [transferLoop] using h
      subst hss
      exact ⟨hI, by simp⟩
    · intro m s' h
      simp [transferLoop] at h
  | cons k ks ih =>
    intro s hI
    obtain ⟨hsrc, hblen, hmax, hdst, hbuf, hflen, hprog, hget⟩ := hI
    cases hg : storeGet s.src k with
    | none =>
      have hg' : storeGet src k = none := by rw [← hsrc]; exact hg
      constructor
      · intro s' h
        simp [transferLoop, hg] at h
      · intro m s' h
        simp only [transferLoop, hg] at h
        injection h with hm hs
        subst hs
        refine ⟨⟨hsrc, hmax, ?_, ?_, ?_, by simp, ?_⟩, 1, le_refl 1, by simp, by simp⟩
        · simpa [dropLast_snoc] using hdst
        · rw [hdst]
          simp only [List.length_append, List.length_take, List.length_map]
          omega
        · simpa [dropLast_snoc] using hprog
        · simpa [dropLast_snoc] using hget
    | some b =>
      have hg' : storeGet src k = some b := by rw [← hsrc]; exact hg
      have hfk : fetch src k = b := fetch_eq_of_storeGet src k b hg' 
      by_cases hfull : 100 ≤ (s.buffer ++ [b]).length
      · have hb99 : s.buffer.length = 99 := by
          simp only [List.length_append, List.length_cons, List.length_nil] at hfull
          omega
        by_cases hput : putOk s.flushes = true
        · -- full buffer, successful flush: recurse with the flushed state
          have hIl : LoopInv d0 p0 src
              { s with
                buffer := [],
                dst := s.dst ++ (s.buffer ++ [b]),
                progress := s.progress + b.rawData.length,
                flushes := s.flushes + 1,
                fetched := s.fetched ++ [k],
                maxBuf := max s.maxBuf (s.buffer ++ [b]).length } := by
            have hFlen : (s.fetched.map (fetch src)).length = 100 * s.flushes + 99 := by
              simp only [List.length_map]
              omega
            refine ⟨hsrc, by simp, ?_, ?_, ?_, ?_, ?_, ?_⟩
            · simp only [List.length_append, List.length_cons, List.length_nil]
              omega
            · show s.dst ++ (s.buffer ++ [b]) =
                d0 ++ ((s.fetched ++ [k]).map (fetch src)).take (100 * (s.flushes + 1))
              have hTD : (s.fetched.map (fetch src)).take (100 * s.flushes) ++
                  (s.fetched.map (fetch src)).drop (100 * s.flushes) =
                  s.fetched.map (fetch src) := List.take_append_drop _ _
              have hlen2 : ((s.fetched ++ [k]).map (fetch src)).length = 100 * (s.flushes + 1) := by
                simp only [List.map_append, List.length_append, List.length_map]
                simp only [List.length_map] at hFlen
                simp
                omega
              rw [List.take_of_length_le (le_of_eq hlen2)]
              rw [hdst, hbuf, List.map_append, List.append_assoc]
              congr 1
              rw [← List.append_assoc, hTD]
              simp [hfk]
            · show ([] : List Block) =
                ((s.fetched ++ [k]).map (fetch src)).drop (100 * (s.flushes + 1))
              have hlen2 : ((s.fetched ++ [k]).map (fetch src)).length = 100 * (s.flushes + 1) := by
                simp only [List.map_append, List.length_append, List.length_map]
                simp
                omega
              rw [List.drop_of_length_le (le_of_eq hlen2)]
            · simp only [List.length_append, List.length_cons, List.length_nil]
              omega
            · show s.progress + b.rawData.length = p0 + sumLens src (s.fetched ++ [k])
              rw [sumLens_snoc, hfk, hprog]
              omega
            · intro k' hk'
              rcases List.mem_append.mp hk' with h' | h'
              · exact hget k' h'
              · simp at h'
                subst h'
                simp [hg']
          obtain ⟨ihOk, ihErr⟩ := ih _ hIl
          constructor
          · intro s' h
            simp only [transferLoop, hg] at h
            rw [if_pos hfull, if_pos hput] at h
            obtain ⟨hI', hf'⟩ := ihOk s' h
            refine ⟨hI', ?_⟩
            rw [hf']
            simp
          · intro m s' h
            simp only [transferLoop, hg] at h
            rw [if_pos hfull, if_pos hput] at h
            obtain ⟨hE', j, hj1, hj2, hf'⟩ := ihErr m s' h
            refine ⟨hE', j + 1, by omega, by simp; omega, ?_⟩
            rw [hf']
            simp [List.take_succ_cons]
        · -- full buffer, failing flush: error with the batch still buffered
          constructor
          · intro s' h
            simp only [transferLoop, hg] at h
            rw [if_pos hfull, if_neg hput] at h
            simp at h
          · intro m s' h
            simp only [transferLoop, hg] at h
            rw [if_pos hfull, if_neg hput] at h
            injection h with hm hs
            subst hs
            refine ⟨⟨hsrc, ?_, ?_, ?_, ?_, by simp, ?_⟩, 1, le_refl 1, by simp, by simp⟩
            · show max s.maxBuf (s.buffer ++ [b]).length ≤ 100
              simp only [List.length_append, List.length_cons, List.length_nil]
              omega
            · simpa [dropLast_snoc] using hdst
            · rw [hdst]
              simp only [List.length_append, List.length_take, List.length_map]
              omega
            · simpa [dropLast_snoc] using hprog
            · simpa [dropLast_snoc] using hget
      · -- buffer below threshold: append and recurse
        have hIl : LoopInv d0 p0 src
            { s with
              buffer := s.buffer ++ [b],
              progress := s.progress + b.rawData.length,
              fetched := s.fetched ++ [k],
              maxBuf := max s.maxBuf (s.buffer ++ [b]).length } := by
          have hsmall : s.buffer.length + 1 ≤ 99 := by
            simp only [List.length_append, List.length_cons, List.length_nil] at hfull
            omega
          have hfle : 100 * s.flushes ≤ (s.fetched.map (fetch src)).length := by
            simp only [List.length_map]
            omega
          refine ⟨hsrc, by simp; omega, ?_, ?_, ?_, ?_, ?_, ?_⟩
          · simp only [List.length_append, List.length_cons, List.length_nil]
            omega
          · show s.dst = d0 ++ ((s.fetched ++ [k]).map (fetch src)).take (100 * s.flushes)
            rw [List.map_append, List.take_append_of_le_length hfle, hdst]
          · show s.buffer ++ [b] = ((s.fetched ++ [k]).map (fetch src)).drop (100 * s.flushes)
            rw [List.map_append, List.drop_append_of_le_length hfle, hbuf]
            simp [hfk]
          · simp only [List.length_append, List.length_cons, List.length_nil]
            omega
          · show s.progress + b.rawData.length = p0 + sumLens src (s.fetched ++ [k])
            rw [sumLens_snoc, hfk, hprog]
            omega
          · intro k' hk'
            rcases List.mem_append.mp hk' with h' | h'
            · exact hget k' h'
            · simp at h'
              subst h'
              simp [hg']
        obtain ⟨ihOk, ihErr⟩ := ih _ hIl
        constructor
        · intro s' h
          simp only [transferLoop, hg] at h
          rw [if_neg hfull] at h
          obtain ⟨hI', hf'⟩ := ihOk s' h
          refine ⟨hI', ?_⟩
          rw [hf']
          simp
        · intro m s' h
          simp only [transferLoop, hg] at h
          rw [if_neg hfull] at h
          obtain ⟨hE', j, hj1, hj2, hf'⟩ := ihErr m s' h
          refine ⟨hE', j + 1, by omega, by simp; omega, ?_⟩
          rw [hf']
          simp [List.take_succ_cons]

/-- The transfer loop never writes the source store: the source contents it
carries are returned unchanged in every outcome (the loop only enumerates
keys and gets blocks from the source). -/
lemma transferLoop_src_frame (putOk : Nat → Bool) :
    ∀ (keys : List Nat) (s : TState), (transferLoop putOk keys s).state.src = s.src := by
  intro keys
  induction keys with
  | nil => intro s; simp [transferLoop, TOutcome.state]
  | cons k ks ih =>
    intro s
    cases hg : storeGet s.src k with
    | none => simp [transferLoop, hg, TOutcome.state]
    | some b =>
      by_cases hfull : 100 ≤ (s.buffer ++ [b]).length
      · by_cases hput : putOk s.flushes = true
        · simp only [transferLoop, hg]
          rw [if_pos hfull, if_pos hput, ih]
        · simp only [transferLoop, hg]
          rw [if_pos hfull, if_neg hput]
          rfl
      · simp only [transferLoop, hg]
        rw [if_neg hfull, ih]

/-- When every enumerated key can be fetched and every flush succeeds, the
transfer loop returns normally. -/
lemma transferLoop_ok_total (putOk : Nat → Bool) (hput : ∀ n, putOk n = true) :
    ∀ (keys : List Nat) (s : TState), (∀ k ∈ keys, (storeGet s.src k).isSome = true) →
      ∃ s', transferLoop putOk keys s = .ok s' := by
  intro keys
  induction keys with
  | nil => intro s _; exact ⟨s, by simp [transferLoop]⟩
  | cons k ks ih =>
    intro s hget
    have h1 : (storeGet s.src k).isSome = true := hget k (by simp)
    cases hg : storeGet s.src k with
    | none => rw [hg] at h1; simp at h1
    | some b =>
      by_cases hfull : 100 ≤ (s.buffer ++ [b]).length
      · obtain ⟨s', hs'⟩ := ih
          { s with
            buffer := [],
            dst := s.dst ++ (s.buffer ++ [b]),
            progress := s.progress + b.rawData.length,
            flushes := s.flushes + 1,
            fetched := s.fetched ++ [k],
            maxBuf := max s.maxBuf (s.buffer ++ [b]).length }
          (fun k' hk' => hget k' (List.mem_cons_of_mem k hk'))
        refine ⟨s', ?_⟩
        simp only [transferLoop, hg]
        rw [if_pos hfull, if_pos (hput s.flushes)]
        exact hs'
      · obtain ⟨s', hs'⟩ := ih
          { s with
            buffer := s.buffer ++ [b],
            progress := s.progress + b.rawData.length,
            fetched := s.fetched ++ [k],
            maxBuf := max s.maxBuf (s.buffer ++ [b]).length }
          (fun k' hk' => hget k' (List.mem_cons_of_mem k hk'))
        refine ⟨s', ?_⟩
        simp only [transferLoop, hg]
        rw [if_neg hfull]
        exact hs'

/-- Full characterization of a successful whole-enumeration transfer: with
every key fetchable and every flush succeeding, `transferBlocks` returns
normally; the destination received exactly the leading
`100 * (n / 100)` blocks (the full batches, in enumeration order), the
trailing `n % 100` blocks remain in the (discarded) buffer, every flush
wrote exactly 100 blocks, and progress counted every payload byte. -/
lemma transferBlocks_ok_spec (putOk : Nat → Bool) (hput : ∀ n, putOk n = true)
    (keys : List Nat) (src : Store) (dst0 : List Block)
    (hget : ∀ k ∈ keys, (storeGet src k).isSome = true) :
    ∃ s', transferBlocks putOk (some keys) src dst0 = .ok s' ∧
      s'.src = src ∧
      s'.dst = dst0 ++ (keys.take (100 * (keys.length / 100))).map (fetch src) ∧
      s'.buffer = (keys.drop (100 * (keys.length / 100))).map (fetch src) ∧
      s'.flushes = keys.length / 100 ∧
      s'.fetched = keys ∧
      s'.progress = sumLens src keys ∧
      s'.maxBuf ≤ 100 := by
  obtain ⟨s', hs'⟩ := transferLoop_ok_total putOk hput keys (initState src dst0)
    (fun k hk => hget k hk)
  obtain ⟨⟨hsrc, hblen, hmax, hdst, hbuf, hflen, hprog, _⟩, hfetched⟩ :=
    (transferLoop_master putOk dst0 0 src keys (initState src dst0) (LoopInv_init src dst0)).1
      s' hs'
  have hfk : s'.fetched = keys := by simpa [initState] using hfetched
  rw [hfk] at hflen hdst hbuf hprog
  have hfl : s'.flushes = keys.length / 100 := by omega
  refine ⟨s', by simpa [transferBlocks] using hs', hsrc, ?_, ?_, hfl, hfk, by simpa using hprog,
    hmax⟩
  · rw [hdst, hfl, List.map_take]
  · rw [hbuf, hfl, List.map_drop]

/-- Characterization of an error return of `transferBlocks`: the fetched
keys are a non-empty prefix of the enumeration (nothing past the failing
call was fetched), the destination holds the prior contents plus exactly
the completed 100-block batches, and progress counted every fetched block
except the failing call's. -/
lemma transferBlocks_err_spec (putOk : Nat → Bool) (keys : List Nat) (src : Store)
    (dst0 : List Block) (m : String) (st : TState)
    (h : transferBlocks putOk (some keys) src dst0 = .err m st) :
    st.src = src ∧
    st.maxBuf ≤ 100 ∧
    st.dst = dst0 ++ ((st.fetched.dropLast).map (fetch src)).take (100 * st.flushes) ∧
    st.dst.length = dst0.length + 100 * st.flushes ∧
    st.progress = sumLens src st.fetched.dropLast ∧
    ∃ j, 1 ≤ j ∧ j ≤ keys.length ∧ st.fetched = keys.take j := by
  have h' : transferLoop putOk keys (initState src dst0) = .err m st := by
    simpa [transferBlocks] using h
  obtain ⟨⟨e1, e2, e3, e4, e5, _, _⟩, j, hj1, hj2, hf⟩ :=
    (transferLoop_master putOk dst0 0 src keys (initState src dst0) (LoopInv_init src dst0)).2
      m st h'
  exact ⟨e1, e2, e3, e4, by simpa using e5, j, hj1, hj2, by simpa [initState] using hf⟩

/-- C1: for a source whose enumeration yields a number of blocks that is
not a multiple of 100 (all gets and flushes succeeding), the transfer
writes only the full batches of 100 to the destination — the first
`100 * (n / 100)` enumerated blocks — and no final flush of the trailing
partial batch occurs: the last `n % 100` enumerated blocks stay in the
discarded buffer and their keys are absent from the destination. -/
theorem transfer_drops_trailing_batch (keys : List Nat) (src : Store)
    (hnd : keys.Nodup)
    (hget : ∀ k ∈ keys, (storeGet src k).isSome = true)
    (hmod : keys.length % 100 ≠ 0) :
    ∃ s', transferBlocks (fun _ => true) (some keys) src [] = .ok s' ∧
      s'.dst = (keys.take (100 * (keys.length / 100))).map (fetch src) ∧
      s'.dst.length = 100 * (keys.length / 100) ∧
      s'.flushes = keys.length / 100 ∧
      s'.buffer.length = keys.length % 100 ∧
      ∀ k ∈ keys.drop (100 * (keys.length / 100)), ∀ blk ∈ s'.dst, blk.cid ≠ k := by
  obtain ⟨s', hrun, hsrc, hdst, hbuf, hfl, hfk, hprog, hmax⟩ :=
    transferBlocks_ok_spec (fun _ => true) (fun _ => rfl) keys src [] hget
  have hdst' : s'.dst = (keys.take (100 * (keys.length / 100))).map (fetch src) := by
    simpa using hdst
  refine ⟨s', hrun, hdst', ?_, hfl, ?_, ?_⟩
  · rw [hdst']
    simp only [List.length_map, List.length_take]
    omega
  · rw [hbuf]
    simp only [List.length_map, List.length_drop]
    omega
  · intro k hk blk hblk
    rw [hdst'] at hblk
    simp only [List.mem_map] at hblk
    obtain ⟨k', hk', rfl⟩ := hblk
    have hk'mem : k' ∈ keys := List.take_subset _ _ hk'
    rw [cid_fetch_of_isSome src k' (hget k' hk'mem)]
    intro he
    subst he
    have hsplit := List.take_append_drop (100 * (keys.length / 100)) keys
    rw [← hsplit, List.nodup_append] at hnd
    exact hnd.2.2 hk' hk

/-- Witness for C1: a source of 250 distinct one-byte blocks; two full
batches (exactly 200 blocks) are flushed and the final 50 keys are absent
from the destination. -/
theorem transfer_drops_trailing_batch_witness :
    ((List.range 250).Nodup ∧
      (∀ k ∈ List.range 250,
        (storeGet ((List.range 250).map (fun i => (i, [7]))) k).isSome = true) ∧
      (List.range 250).length % 100 ≠ 0) ∧
    100 * ((List.range 250).length / 100) = 200 ∧
    (List.range 250).length % 100 = 50 ∧
    ∃ s', transferBlocks (fun _ => true) (some (List.range 250))
        ((List.range 250).map (fun i => (i, [7]))) [] = .ok s' ∧
      s'.dst = ((List.range 250).take (100 * ((List.range 250).length / 100))).map
        (fetch ((List.range 250).map (fun i => (i, [7])))) ∧
      s'.dst.length = 100 * ((List.range 250).length / 100) ∧
      s'.flushes = (List.range 250).length / 100 ∧
      s'.buffer.length = (List.range 250).length % 100 ∧
      ∀ k ∈ (List.range 250).drop (100 * ((List.range 250).length / 100)),
        ∀ blk ∈ s'.dst, blk.cid ≠ k :=
  ⟨⟨List.nodup_range 250, by decide, by decide⟩, by decide, by decide,
    transfer_drops_trailing_batch (List.range 250) ((List.range 250).map (fun i => (i, [7])))
      (List.nodup_range 250) (by decide) (by decide)⟩

/-- C4: the in-memory batch is invariant-bounded: over any transfer the
largest batch ever held is at most 100 blocks, the destination only ever
grows by full batches of exactly 100 blocks (flushes happen exactly at the
100 threshold), and at every loop exit without error the buffer rests at
no more than 99 blocks (it is cleared right after each flush). -/
theorem transfer_batch_bounded (putOk : Nat → Bool) (keys : List Nat) (src : Store)
    (dst0 : List Block) :
    (transferBlocks putOk (some keys) src dst0).state.maxBuf ≤ 100 ∧
    (transferBlocks putOk (some keys) src dst0).state.dst.length =
      dst0.length + 100 * (transferBlocks putOk (some keys) src dst0).state.flushes ∧
    ((transferBlocks putOk (some keys) src dst0).isErr = false →
      (transferBlocks putOk (some keys) src dst0).state.buffer.length ≤ 99) := by
  cases hr : transferBlocks putOk (some keys) src dst0 with
  | ok s' =>
    have h' : transferLoop putOk keys (initState src dst0) = .ok s' := by
      simpa [transferBlocks] using hr
    obtain ⟨⟨hsrc, hblen, hmax, hdst, hbuf, hflen, hprog, _⟩, _⟩ :=
      (transferLoop_master putOk dst0 0 src keys _ (LoopInv_init src dst0)).1 s' h'
    refine ⟨hmax, ?_, fun _ => hblen⟩
    show s'.dst.length = dst0.length + 100 * s'.flushes
    rw [hdst]
    simp only [List.length_append, List.length_take, List.length_map]
    omega
  | err m s' =>
    obtain ⟨_, hmax, _, hlen, _, _⟩ := transferBlocks_err_spec putOk keys src dst0 m s' hr
    exact ⟨hmax, hlen, by simp [TOutcome.isErr]⟩

/-- Witness for C4 at a concrete input: 105 keys, all flushes succeeding. -/
theorem transfer_batch_bounded_witness :
    ((transferBlocks (fun _ => true) (some (List.range 105))
        ((List.range 105).map (fun i => (i, [7]))) []).state.maxBuf ≤ 100 ∧
      (transferBlocks (fun _ => true) (some (List.range 105))
        ((List.range 105).map (fun i => (i, [7]))) []).state.dst.length =
        ([] : List Block).length + 100 * (transferBlocks (fun _ => true) (some (List.range 105))
          ((List.range 105).map (fun i => (i, [7]))) []).state.flushes ∧
      ((transferBlocks (fun _ => true) (some (List.range 105))
        ((List.range 105).map (fun i => (i, [7]))) []).isErr = false →
        (transferBlocks (fun _ => true) (some (List.range 105))
          ((List.range 105).map (fun i => (i, [7]))) []).state.buffer.length ≤ 99)) ∧
    (transferBlocks (fun _ => true) (some (List.range 105))
      ((List.range 105).map (fun i => (i, [7]))) []).isErr = false :=
  ⟨transfer_batch_bounded (fun _ => true) (List.range 105)
      ((List.range 105).map (fun i => (i, [7]))) [], by decide⟩

/-- The keys whose payload bytes the progress bar counted: every fetched
key, except the last fetched one when the transfer aborted (its `bar.Add`
is never reached, whether the get or the flush failed). -/
def countedKeys (r : TOutcome) : List Nat :=
  if r.isErr then r.state.fetched.dropLast else r.state.fetched

/-- C5 (amended): progress is advanced by each fetched block's payload
length after the batch-flush step, so a transfer's total progress equals
the sum of the payload lengths of its fetched blocks except that an
aborting transfer never counts the block of the failing call — in
particular a `putMany` failure leaves the block that triggered it
uncounted even though its get succeeded. -/
theorem transfer_progress_total (putOk : Nat → Bool) (keys : List Nat) (src : Store)
    (dst0 : List Block) :
    (transferBlocks putOk (some keys) src dst0).state.progress =
      sumLens src (countedKeys (transferBlocks putOk (some keys) src dst0)) := by
  cases hr : transferBlocks putOk (some keys) src dst0 with
  | ok s' =>
    have h' : transferLoop putOk keys (initState src dst0) = .ok s' := by
      simpa [transferBlocks] using hr
    obtain ⟨⟨_, _, _, _, _, _, hprog, _⟩, _⟩ :=
      (transferLoop_master putOk dst0 0 src keys _ (LoopInv_init src dst0)).1 s' h'
    simpa [countedKeys, TOutcome.isErr, TOutcome.state] using hprog
  | err m s' =>
    obtain ⟨_, _, _, _, hprog, _⟩ := transferBlocks_err_spec putOk keys src dst0 m s' hr
    simpa [countedKeys, TOutcome.isErr, TOutcome.state] using hprog

/-- Counterexample to C5 as stated: a source of 100 one-byte blocks whose
first `putMany` fails.  All 100 gets succeeded (100 keys fetched, 100
payload bytes fetched in total), yet the total progress advanced is 99,
not 100: the block that triggered the failing flush was fetched but never
counted. -/
theorem transfer_progress_claim_counterexample :
    ((transferBlocks (fun _ => false) (some (List.range 100))
        ((List.range 100).map (fun i => (i, [7]))) []).isErr = true) ∧
    (transferBlocks (fun _ => false) (some (List.range 100))
        ((List.range 100).map (fun i => (i, [7]))) []).state.fetched.length = 100 ∧
    (∀ k ∈ (transferBlocks (fun _ => false) (some (List.range 100))
        ((List.range 100).map (fun i => (i, [7]))) []).state.fetched,
      (storeGet ((List.range 100).map (fun i => (i, [7]))) k).isSome = true) ∧
    sumLens ((List.range 100).map (fun i => (i, [7])))
      (transferBlocks (fun _ => false) (some (List.range 100))
        ((List.range 100).map (fun i => (i, [7]))) []).state.fetched = 100 ∧
    (transferBlocks (fun _ => false) (some (List.range 100))
        ((List.range 100).map (fun i => (i, [7]))) []).state.progress = 99 := by
  decide

/-- C10: the source store is only read: over any transfer invocation
(succeeding or aborting, including a failed key enumeration) the source
contents threaded through the transfer come back unchanged — the loop
invokes only key enumeration and `Get` on the source handle. -/
theorem transfer_source_readonly (putOk : Nat → Bool) (keysChan : Option (List Nat))
    (src : Store) (dst0 : List Block) :
    (transferBlocks putOk keysChan src dst0).state.src = src := by
  cases keysChan with
  | none => simp [transferBlocks, TOutcome.state, initState]
  | some keys =>
    have h := transferLoop_src_frame putOk keys (initState src dst0)
    simpa [transferBlocks, initState] using h

mutual

/-- `dirSize` computes exactly the sum of the regular file sizes when the
walk completes, and returns the walk's error when some entry fails. -/
theorem dirSize_eq (t : FSTree) :
    dirSize t = if hasIOError t then Except.error "walk failed"
      else Except.ok (totalFileSize t) := by
  cases t with
  | file n => simp [dirSize, hasIOError, totalFileSize]
  | ioError => simp [dirSize, hasIOError, totalFileSize]
  | dir cs => simpa [dirSize, hasIOError, totalFileSize] using dirSizeList_eq cs

/-- `dirSizeList` over children, likewise. -/
theorem dirSizeList_eq (ts : List FSTree) :
    dirSizeList ts = if hasIOErrorList ts then Except.error "walk failed"
      else Except.ok (totalFileSizeList ts) := by
  cases ts with
  | nil => simp [dirSizeList, hasIOErrorList, totalFileSizeList]
  | cons t ts' =>
    rw [dirSizeList, dirSize_eq t, dirSizeList_eq ts']
    by_cases h1 : hasIOError t
    · simp [h1, hasIOErrorList]
    · by_cases h2 : hasIOErrorList ts'
      · simp [h1, h2, hasIOErrorList]
      · simp [h1, h2, hasIOErrorList, totalFileSizeList]

end

/-- Getting a key that is not the head entry's skips the head entry. -/
lemma storeGet_cons_ne (p : Nat × List Nat) (rest : Store) (k : Nat) (h : p.1 ≠ k) :
    storeGet (p :: rest) k = storeGet rest k := by
  unfold storeGet
  rw [List.find?_cons_of_neg]
  simp [h]

/-- Getting a store's own head key returns its head entry. -/
lemma storeGet_cons_self (p : Nat × List Nat) (rest : Store) :
    storeGet (p :: rest) p.1 = some (toBlock p) := by
  unfold storeGet toBlock
  rw [List.find?_cons_of_pos]
  · rfl
  · simp

/-- Fetching a store's enumerated keys, in order, yields exactly the
store's own blocks when the keys are distinct. -/
lemma map_fetch_keys (src : Store) (hnd : (src.map Prod.fst).Nodup) :
    (src.map Prod.fst).map (fetch src) = src.map toBlock := by
  induction src with
  | nil => simp
  | cons p rest ih =>
    simp only [List.map_cons, List.nodup_cons] at hnd ⊢
    have hhead : fetch (p :: rest) p.1 = toBlock p := by
      unfold fetch
      rw [storeGet_cons_self]
      rfl
    have hcong : (rest.map Prod.fst).map (fetch (p :: rest)) =
        (rest.map Prod.fst).map (fetch rest) := by
      apply List.map_congr_left
      intro k hk
      unfold fetch
      rw [storeGet_cons_ne p rest k]
      intro he
      exact hnd.1 (he ▸ hk)
    rw [hhead, hcong, ih hnd.2]

/-- Looking a key up among a source's blocks agrees with looking it up in
the source store. -/
lemma blockGet_map_toBlock (src : Store) (k : Nat) :
    blockGet (src.map toBlock) k = storeGet src k := by
  unfold blockGet storeGet
  rw [List.find?_map]
  rfl

/-- `cmdMerge` reaches the per-source loop once the destination is created
and opened and the input list is non-empty. -/
lemma cmdMerge_enters_loop (d : Dest) (inputs : List Source)
    (hcreate : d.createOk = true) (hopen : d.openOk = true)
    (hne : inputs.length ≠ 0) :
    cmdMerge d inputs = cmdMergeLoop d inputs 0 [] [.createOut, .openOut] [] := by
  simp [cmdMerge, hcreate, hopen, hne]

/-- A merge-loop step over a source that opens, estimates and transfers
successfully: the loop records the four per-source events, the estimate,
and continues over the transferred destination contents. -/
lemma cmdMergeLoop_cons_ok (d : Dest) (s : Source) (rest : List Source) (i : Nat)
    (dst : List Block) (tr : List MEvent) (ests : List Nat) (sz : Nat) (st : TState)
    (hopen : s.openOk = true) (hsz : dirSize s.tree = .ok sz)
    (htr : transferBlocks (d.putOk i) s.keysChan s.store dst = .ok st) :
    cmdMergeLoop d (s :: rest) i dst tr ests =
      cmdMergeLoop d rest (i + 1) st.dst
        (tr ++ [.openIn i, .estimateIn i, .transferIn i, .closeIn i]) (ests ++ [sz]) := by
  simp [cmdMergeLoop, hopen, hsz, htr]

/-- A merge-loop step over a source whose transfer fails: the merge aborts
with the transfer's error, keeping the destination contents the failed
transfer left behind, and records no close, no further source, no sync. -/
lemma cmdMergeLoop_cons_transferErr (d : Dest) (s : Source) (rest : List Source) (i : Nat)
    (dst : List Block) (tr : List MEvent) (ests : List Nat) (sz : Nat) (m : String)
    (st : TState)
    (hopen : s.openOk = true) (hsz : dirSize s.tree = .ok sz)
    (htr : transferBlocks (d.putOk i) s.keysChan s.store dst = .err m st) :
    cmdMergeLoop d (s :: rest) i dst tr ests =
      ⟨some m, st.dst, tr ++ [.openIn i, .estimateIn i, .transferIn i], ests ++ [sz]⟩ := by
  simp [cmdMergeLoop, hopen, hsz, htr]

/-- A merge-loop step over a source whose size estimation fails: the merge
aborts with the walk's error before any transfer, leaving the destination
contents untouched. -/
lemma cmdMergeLoop_cons_estimateErr (d : Dest) (s : Source) (rest : List Source) (i : Nat)
    (dst : List Block) (tr : List MEvent) (ests : List Nat) (e : String)
    (hopen : s.openOk = true) (hsz : dirSize s.tree = .error e) :
    cmdMergeLoop d (s :: rest) i dst tr ests =
      ⟨some e, dst, tr ++ [.openIn i, .estimateIn i], ests⟩ := by
  simp [cmdMergeLoop, hopen, hsz]

/-- The merge finalization with both `Sync` and `Close` succeeding. -/
lemma cmdMergeLoop_nil_ok (d : Dest) (i : Nat) (dst : List Block) (tr : List MEvent)
    (ests : List Nat) (hsync : d.syncOk = true) (hclose : d.closeOk = true) :
    cmdMergeLoop d [] i dst tr ests = ⟨none, dst, tr ++ [.syncOut, .closeOut], ests⟩ := by
  simp [cmdMergeLoop, hsync, hclose]

/-- C2: merging a source store whose block count is a multiple of 100,
alone, into a fresh destination (all stores healthy) succeeds and copies
it exactly: the destination's blocks are the source's blocks, its key
sequence is the source's enumeration, and its per-key payloads match the
source's byte for byte. -/
theorem merge_roundtrip_multiple_of_100 (d : Dest) (t : FSTree) (sz : Nat) (cOk : Bool)
    (src : Store)
    (hnd : (src.map Prod.fst).Nodup)
    (hmod : src.length % 100 = 0)
    (hcreate : d.createOk = true) (hopen : d.openOk = true)
    (hsync : d.syncOk = true) (hclose : d.closeOk = true)
    (hput : ∀ i n, d.putOk i n = true)
    (htree : dirSize t = .ok sz) :
    (cmdMerge d [⟨true, t, some (src.map Prod.fst), src, cOk⟩]).res = none ∧
    (cmdMerge d [⟨true, t, some (src.map Prod.fst), src, cOk⟩]).dst = src.map toBlock ∧
    (cmdMerge d [⟨true, t, some (src.map Prod.fst), src, cOk⟩]).dst.map Block.cid =
      src.map Prod.fst ∧
    ∀ k, blockGet (cmdMerge d [⟨true, t, some (src.map Prod.fst), src, cOk⟩]).dst k =
      storeGet src k := by
  obtain ⟨s', hrun, hsrc, hdst, hbuf, hfl, hfk, hprog, hmax⟩ :=
    transferBlocks_ok_spec (d.putOk 0) (hput 0) (src.map Prod.fst) src []
      (fun k hk => storeGet_isSome_of_mem src k hk)
  have hlen : (src.map Prod.fst).length = src.length := by simp
  have htake : 100 * ((src.map Prod.fst).length / 100) = (src.map Prod.fst).length := by
    rw [hlen]
    omega
  have hdst' : s'.dst = src.map toBlock := by
    rw [hdst, htake, List.take_length, List.nil_append, map_fetch_keys src hnd]
  rw [cmdMerge_enters_loop d _ hcreate hopen (by simp),
    cmdMergeLoop_cons_ok d _ [] 0 [] _ _ sz s' rfl htree hrun,
    cmdMergeLoop_nil_ok d 1 s'.dst _ _ hsync hclose]
  refine ⟨rfl, hdst', ?_, ?_⟩
  · show s'.dst.map Block.cid = src.map Prod.fst
    rw [hdst', List.map_map]
    apply List.map_congr_left
    intro p _
    rfl
  · intro k
    show blockGet s'.dst k = storeGet src k
    rw [hdst', blockGet_map_toBlock]

/-- C3: when a get or putMany fails during a source's transfer, the
transfer aborts at that call — the keys fetched form a prefix of the
enumeration ending at the failing call, so no further key is fetched and
nothing is retried — the error propagates to the merge loop, which aborts
the whole merge there (no source close, no further source, no destination
sync or close), and the destination retains exactly the blocks of all
previously completed putMany calls: full batches of 100, never rolled
back. -/
theorem merge_abort_on_failure_no_rollback (d : Dest) (s : Source) (rest : List Source)
    (i : Nat) (dst0 : List Block) (tr : List MEvent) (ests : List Nat)
    (keys : List Nat) (sz : Nat)
    (hopen : s.openOk = true) (hsz : dirSize s.tree = .ok sz)
    (hkeys : s.keysChan = some keys)
    (herr : (transferBlocks (d.putOk i) (some keys) s.store dst0).isErr = true) :
    ∃ m st, transferBlocks (d.putOk i) (some keys) s.store dst0 = .err m st ∧
      cmdMergeLoop d (s :: rest) i dst0 tr ests =
        ⟨some m, st.dst, tr ++ [.openIn i, .estimateIn i, .transferIn i], ests ++ [sz]⟩ ∧
      (∃ j, 1 ≤ j ∧ j ≤ keys.length ∧ st.fetched = keys.take j) ∧
      st.dst = dst0 ++ ((st.fetched.dropLast).map (fetch s.store)).take (100 * st.flushes) ∧
      st.dst.length = dst0.length + 100 * st.flushes := by
  cases hr : transferBlocks (d.putOk i) (some keys) s.store dst0 with
  | ok st => rw [hr] at herr; simp [TOutcome.isErr] at herr
  | err m st =>
    obtain ⟨e1, e2, e3, e4, e5, hj⟩ :=
      transferBlocks_err_spec (d.putOk i) keys s.store dst0 m st hr
    refine ⟨m, st, rfl, ?_, hj, e3, e4⟩
    apply cmdMergeLoop_cons_transferErr d s rest i dst0 tr ests sz m st hopen hsz
    rw [hkeys]
    exact hr

/-- C6: the size estimator returns the sum of the sizes of all regular
files under the path found by its recursive walk, skipping directory
entries; when the walk cannot complete it fails with the walk's error, and
on that failure the merge loop aborts the merge for that source before any
transfer (destination untouched, no estimate recorded) rather than
proceeding with a guessed size. -/
theorem dirSize_sums_files_and_aborts_merge (t : FSTree) (d : Dest) (s : Source)
    (rest : List Source) (i : Nat) (dst0 : List Block) (tr : List MEvent) (ests : List Nat) :
    (hasIOError t = false → dirSize t = .ok (totalFileSize t)) ∧
    (hasIOError t = true → dirSize t = .error "walk failed") ∧
    (∀ e, s.openOk = true → dirSize s.tree = .error e →
      cmdMergeLoop d (s :: rest) i dst0 tr ests =
        ⟨some e, dst0, tr ++ [.openIn i, .estimateIn i], ests⟩) := by
  refine ⟨?_, ?_, ?_⟩
  · intro h
    rw [dirSize_eq, h]
    simp
  · intro h
    rw [dirSize_eq, h]
    simp
  · intro e hopen hsz
    exact cmdMergeLoop_cons_estimateErr d s rest i dst0 tr ests e hopen hsz

/-- Trace of the merge loop, tied to whether the per-source phase
completes: aborting on any source (open, estimate or transfer failure)
leaves only per-source events — the destination is neither synced nor
closed, whatever the finalization oracles would do — and yields an error;
completing every source always syncs, closes exactly when the sync
succeeded, and reports any sync or close failure. -/
lemma cmdMergeLoop_trace_cases (d : Dest) :
    ∀ (srcs : List Source) (i : Nat) (dst : List Block) (tr : List MEvent) (ests : List Nat),
      (sourcesOk d srcs i dst = false →
        ∃ mid, MEvent.syncOut ∉ mid ∧ MEvent.closeOut ∉ mid ∧
          (cmdMergeLoop d srcs i dst tr ests).trace = tr ++ mid ∧
          (cmdMergeLoop d srcs i dst tr ests).res.isSome = true) ∧
      (sourcesOk d srcs i dst = true →
        ∃ mid, MEvent.syncOut ∉ mid ∧ MEvent.closeOut ∉ mid ∧
          ((d.syncOk = true →
              (cmdMergeLoop d srcs i dst tr ests).trace =
                tr ++ mid ++ [.syncOut, .closeOut] ∧
              ((cmdMergeLoop d srcs i dst tr ests).res = none ↔ d.closeOk = true)) ∧
            (d.syncOk = false →
              (cmdMergeLoop d srcs i dst tr ests).trace = tr ++ mid ++ [.syncOut] ∧
              (cmdMergeLoop d srcs i dst tr ests).res.isSome = true))) := by
  intro srcs
  induction srcs with
  | nil =>
    intro i dst tr ests
    constructor
    · intro h
      simp [sourcesOk] at h
    · intro _
      refine ⟨[], by simp, by simp, ?_, ?_⟩
      · intro hsync
        by_cases hclose : d.closeOk = true
        · constructor
          · simp [cmdMergeLoop, hsync, hclose]
          · simp [cmdMergeLoop, hsync, hclose]
        · have hclose' : d.closeOk = false := by simpa using hclose
          constructor
          · simp [cmdMergeLoop, hsync, hclose']
          · simp [cmdMergeLoop, hsync, hclose']
      · intro hsync
        constructor
        · simp [cmdMergeLoop, hsync]
        · simp [cmdMergeLoop, hsync]
  | cons s rest ih =>
    intro i dst tr ests
    by_cases hopen : s.openOk = true
    · cases hsz : dirSize s.tree with
      | error e =>
        have hso : sourcesOk d (s :: rest) i dst = false := by
          simp [sourcesOk, hopen, hsz]
        constructor
        · intro _
          rw [cmdMergeLoop_cons_estimateErr d s rest i dst tr ests e hopen hsz]
          exact ⟨[.openIn i, .estimateIn i], by simp, by simp, rfl, rfl⟩
        · intro h
          rw [hso] at h
          simp at h
      | ok sz =>
        cases htr : transferBlocks (d.putOk i) s.keysChan s.store dst with
        | err m st =>
          have hso : sourcesOk d (s :: rest) i dst = false := by
            simp [sourcesOk, hopen, hsz, htr]
          constructor
          · intro _
            rw [cmdMergeLoop_cons_transferErr d s rest i dst tr ests sz m st hopen hsz htr]
            exact ⟨[.openIn i, .estimateIn i, .transferIn i], by simp, by simp, rfl, rfl⟩
          · intro h
            rw [hso] at h
            simp at h
        | ok st =>
          have hso : sourcesOk d (s :: rest) i dst = sourcesOk d rest (i + 1) st.dst := by
            simp [sourcesOk, hopen, hsz, htr]
          obtain ⟨ihF, ihT⟩ := ih (i + 1) st.dst
            (tr ++ [.openIn i, .estimateIn i, .transferIn i, .closeIn i]) (ests ++ [sz])
          rw [cmdMergeLoop_cons_ok d s rest i dst tr ests sz st hopen hsz htr, hso]
          constructor
          · intro h
            obtain ⟨mid, h1, h2, h3, h4⟩ := ihF h
            refine ⟨[.openIn i, .estimateIn i, .transferIn i, .closeIn i] ++ mid,
              by simp [h1], by simp [h2], ?_, h4⟩
            rw [h3]
            simp
          · intro h
            obtain ⟨mid, h1, h2, hT, hF⟩ := ihT h
            refine ⟨[.openIn i, .estimateIn i, .transferIn i, .closeIn i] ++ mid,
              by simp [h1], by simp [h2], ?_, ?_⟩
            · intro hsync
              obtain ⟨ha, hb⟩ := hT hsync
              refine ⟨?_, hb⟩
              rw [ha]
              simp
            · intro hsync
              obtain ⟨ha, hb⟩ := hF hsync
              refine ⟨?_, hb⟩
              rw [ha]
              simp
    · have hopen' : s.openOk = false := by simpa using hopen
      have hso : sourcesOk d (s :: rest) i dst = false := by
        simp [sourcesOk, hopen']
      constructor
      · intro _
        have hloop : cmdMergeLoop d (s :: rest) i dst tr ests =
            ⟨some "could not open input", dst, tr ++ [.openIn i], ests⟩ := by
          simp [cmdMergeLoop, hopen']
        rw [hloop]
        exact ⟨[.openIn i], by simp, by simp, rfl, rfl⟩
      · intro h
        rw [hso] at h
        simp at h

/-- C7: a merge run that processes all sources successfully always syncs
the destination and then closes it, with close invoked only immediately
after a successful sync (a failed sync is returned with close never
reached, so close cannot stand in for sync) and a sync or close failure
reported as an error to the caller; a run that aborts during source
processing (source open, estimate or transfer failure) invokes neither
sync nor close on the destination, which is left open and unsynced. -/
theorem merge_syncs_then_closes (d : Dest) (inputs : List Source) :
    (d.createOk = true → d.openOk = true → inputs.length ≠ 0 →
      sourcesOk d inputs 0 [] = true →
      ∃ mid, MEvent.syncOut ∉ mid ∧ MEvent.closeOut ∉ mid ∧
        ((d.syncOk = true →
            (cmdMerge d inputs).trace = mid ++ [.syncOut, .closeOut] ∧
            ((cmdMerge d inputs).res = none ↔ d.closeOk = true)) ∧
          (d.syncOk = false →
            (cmdMerge d inputs).trace = mid ++ [.syncOut] ∧
            (cmdMerge d inputs).res.isSome = true))) ∧
    (d.createOk = true → d.openOk = true → inputs.length ≠ 0 →
      sourcesOk d inputs 0 [] = false →
      MEvent.syncOut ∉ (cmdMerge d inputs).trace ∧
      MEvent.closeOut ∉ (cmdMerge d inputs).trace ∧
      (cmdMerge d inputs).res.isSome = true) := by
  constructor
  · intro hcreate hopen hne hok
    rw [cmdMerge_enters_loop d inputs hcreate hopen hne]
    obtain ⟨_, ihT⟩ := cmdMergeLoop_trace_cases d inputs 0 [] [.createOut, .openOut] []
    obtain ⟨mid, h1, h2, hT, hF⟩ := ihT hok
    refine ⟨[.createOut, .openOut] ++ mid, by simp [h1], by simp [h2], ?_, ?_⟩
    · intro hsync
      obtain ⟨ha, hb⟩ := hT hsync
      exact ⟨by rw [ha], hb⟩
    · intro hsync
      obtain ⟨ha, hb⟩ := hF hsync
      exact ⟨by rw [ha], hb⟩
  · intro hcreate hopen hne hfail
    rw [cmdMerge_enters_loop d inputs hcreate hopen hne]
    obtain ⟨ihF, _⟩ := cmdMergeLoop_trace_cases d inputs 0 [] [.createOut, .openOut] []
    obtain ⟨mid, h1, h2, h3, h4⟩ := ihF hfail
    refine ⟨?_, ?_, h4⟩
    · rw [h3]
      simp [h1]
    · rw [h3]
      simp [h2]

/-- C8: merging a source with zero blocks (empty key enumeration, empty
on-disk footprint) succeeds as a no-op step: the transfer returns its
initial state (zero flushes, so no putMany was performed), the destination
contents are unchanged, the recorded size estimate is zero, and the merge
continues with the remaining sources. -/
theorem merge_empty_source (d : Dest) (s : Source) (rest : List Source) (i : Nat)
    (dst0 : List Block) (tr : List MEvent) (ests : List Nat)
    (hopen : s.openOk = true) (hkeys : s.keysChan = some [])
    (htree : s.tree = emptyStoreTree) :
    transferBlocks (d.putOk i) s.keysChan s.store dst0 = .ok (initState s.store dst0) ∧
    (initState s.store dst0).dst = dst0 ∧
    (initState s.store dst0).flushes = 0 ∧
    cmdMergeLoop d (s :: rest) i dst0 tr ests =
      cmdMergeLoop d rest (i + 1) dst0
        (tr ++ [.openIn i, .estimateIn i, .transferIn i, .closeIn i]) (ests ++ [0]) := by
  have htr : transferBlocks (d.putOk i) s.keysChan s.store dst0 =
      .ok (initState s.store dst0) := by
    rw [hkeys]
    simp [transferBlocks, transferLoop]
  refine ⟨htr, rfl, rfl, ?_⟩
  have hsz : dirSize s.tree = .ok 0 := by
    rw [htree]
    rfl
  exact cmdMergeLoop_cons_ok d s rest i dst0 tr ests 0 (initState s.store dst0) hopen hsz htr

/-- C9: invoking the merge with an empty input list returns the
"at least one input is required" error only after the destination layout
was already created on disk and opened: the failing run is not atomic and
leaves behind a newly created, empty, unsynced, unclosed destination. -/
theorem merge_no_inputs_after_create (d : Dest)
    (hcreate : d.createOk = true) (hopen : d.openOk = true) :
    cmdMerge d [] =
      ⟨some "at least one input is required", [], [.createOut, .openOut], []⟩ ∧
    MEvent.createOut ∈ (cmdMerge d []).trace ∧
    MEvent.openOut ∈ (cmdMerge d []).trace ∧
    MEvent.syncOut ∉ (cmdMerge d []).trace ∧
    MEvent.closeOut ∉ (cmdMerge d []).trace ∧
    (cmdMerge d []).dst = [] := by
  have h : cmdMerge d [] =
      ⟨some "at least one input is required", [], [.createOut, .openOut], []⟩ := by
    simp [cmdMerge, hcreate, hopen]
  rw [h]
  exact ⟨rfl, by simp, by simp, by simp, by simp, rfl⟩

/-- A destination environment in which every store operation succeeds. -/
def allOkDest : Dest := ⟨true, true, fun _ _ => true, true, true⟩

/-- A concrete source store of 100 distinct one-byte blocks. -/
def src100 : Store := (List.range 100).map (fun i => (i, [i]))

/-- A concrete zero-block source over the empty-store footprint. -/
def srcEmpty : Source := ⟨true, emptyStoreTree, some [], [(3, [1, 2])], true⟩

/-- A concrete source whose enumeration reports key 1 although only key 0
is present, so the get of key 1 fails mid-transfer. -/
def srcMissingKey : Source := ⟨true, .dir [.file 2], some [0, 1], [(0, [5])], true⟩

/-- A concrete error-free file tree, totalling 12 bytes of regular files. -/
def tGood : FSTree := .dir [.file 3, .dir [.file 4], .file 5]

/-- A concrete file tree whose walk hits an erroring entry. -/
def tBad : FSTree := .dir [.file 3, .ioError]

/-- A concrete source whose on-disk walk fails. -/
def srcBadTree : Source := ⟨true, tBad, some [], [], true⟩

/-- Witness for C2: merging the concrete 100-block source alone into a
fresh destination reproduces it exactly. -/
theorem merge_roundtrip_multiple_of_100_witness :
    ((src100.map Prod.fst).Nodup ∧ src100.length % 100 = 0) ∧
    (cmdMerge allOkDest [⟨true, .dir [], some (src100.map Prod.fst), src100, true⟩]).res =
      none ∧
    (cmdMerge allOkDest [⟨true, .dir [], some (src100.map Prod.fst), src100, true⟩]).dst =
      src100.map toBlock ∧
    (cmdMerge allOkDest
        [⟨true, .dir [], some (src100.map Prod.fst), src100, true⟩]).dst.map Block.cid =
      src100.map Prod.fst ∧
    ∀ k, blockGet
        (cmdMerge allOkDest [⟨true, .dir [], some (src100.map Prod.fst), src100, true⟩]).dst
        k = storeGet src100 k :=
  ⟨⟨by decide, by decide⟩,
    merge_roundtrip_multiple_of_100 allOkDest (.dir []) 0 true src100 (by decide) (by decide)
      rfl rfl rfl rfl (fun _ _ => rfl) rfl⟩

/-- Witness for C3: a source whose second get fails; the merge aborts with
the transfer's error and the destination keeps no partial batch. -/
theorem merge_abort_on_failure_no_rollback_witness :
    (srcMissingKey.openOk = true ∧ dirSize srcMissingKey.tree = .ok 2 ∧
      srcMissingKey.keysChan = some [0, 1] ∧
      (transferBlocks (allOkDest.putOk 0) (some [0, 1]) srcMissingKey.store []).isErr =
        true) ∧
    ∃ m st, transferBlocks (allOkDest.putOk 0) (some [0, 1]) srcMissingKey.store [] =
        .err m st ∧
      cmdMergeLoop allOkDest [srcMissingKey] 0 [] [] [] =
        ⟨some m, st.dst, [.openIn 0, .estimateIn 0, .transferIn 0], [2]⟩ ∧
      (∃ j, 1 ≤ j ∧ j ≤ [0, 1].length ∧ st.fetched = [0, 1].take j) ∧
      st.dst =
        ((st.fetched.dropLast).map (fetch srcMissingKey.store)).take (100 * st.flushes) ∧
      st.dst.length = ([] : List Block).length + 100 * st.flushes :=
  ⟨⟨rfl, rfl, rfl, by decide⟩,
    merge_abort_on_failure_no_rollback allOkDest srcMissingKey [] 0 [] [] [] [0, 1] 2
      rfl rfl rfl (by decide)⟩

/-- Witness for C6: a completed walk sums the regular files (12 bytes), an
erroring walk fails, and the merge loop aborts on the failed estimate. -/
theorem dirSize_sums_files_and_aborts_merge_witness :
    (hasIOError tGood = false ∧ dirSize tGood = .ok (totalFileSize tGood) ∧
      totalFileSize tGood = 12) ∧
    (hasIOError tBad = true ∧ dirSize tBad = .error "walk failed") ∧
    (srcBadTree.openOk = true ∧ dirSize srcBadTree.tree = .error "walk failed" ∧
      cmdMergeLoop allOkDest [srcBadTree] 0 [] [] [] =
        ⟨some "walk failed", [], [.openIn 0, .estimateIn 0], []⟩) :=
  ⟨⟨rfl, (dirSize_sums_files_and_aborts_merge tGood allOkDest srcBadTree [] 0 [] [] []).1 rfl,
      rfl⟩,
    ⟨rfl, (dirSize_sums_files_and_aborts_merge tBad allOkDest srcBadTree [] 0 [] [] []).2.1
      rfl⟩,
    ⟨rfl, rfl,
      (dirSize_sums_files_and_aborts_merge tBad allOkDest srcBadTree [] 0 [] [] []).2.2
        "walk failed" rfl rfl⟩⟩

/-- Witness for C8: merging the concrete empty source over a non-empty
destination changes nothing, reports a zero estimate, and continues. -/
theorem merge_empty_source_witness :
    (srcEmpty.openOk = true ∧ srcEmpty.keysChan = some [] ∧
      srcEmpty.tree = emptyStoreTree) ∧
    transferBlocks (allOkDest.putOk 0) srcEmpty.keysChan srcEmpty.store [⟨9, [1]⟩] =
      .ok (initState srcEmpty.store [⟨9, [1]⟩]) ∧
    (initState srcEmpty.store [⟨9, [1]⟩]).dst = [⟨9, [1]⟩] ∧
    (initState srcEmpty.store [⟨9, [1]⟩]).flushes = 0 ∧
    cmdMergeLoop allOkDest [srcEmpty] 0 [⟨9, [1]⟩] [] [] =
      cmdMergeLoop allOkDest [] 1 [⟨9, [1]⟩]
        [.openIn 0, .estimateIn 0, .transferIn 0, .closeIn 0] [0] :=
  ⟨⟨rfl, rfl, rfl⟩, merge_empty_source allOkDest srcEmpty [] 0 [⟨9, [1]⟩] [] [] rfl rfl rfl⟩

/-- Witness for C9: running the merge with no inputs against an all-healthy
environment fails, yet created and opened the destination first. -/
theorem merge_no_inputs_after_create_witness :
    (allOkDest.createOk = true ∧ allOkDest.openOk = true) ∧
    cmdMerge allOkDest [] =
      ⟨some "at least one input is required", [], [.createOut, .openOut], []⟩ ∧
    MEvent.createOut ∈ (cmdMerge allOkDest []).trace ∧
    MEvent.openOut ∈ (cmdMerge allOkDest []).trace ∧
    MEvent.syncOut ∉ (cmdMerge allOkDest []).trace ∧
    MEvent.closeOut ∉ (cmdMerge allOkDest []).trace ∧
    (cmdMerge allOkDest []).dst = [] :=
  ⟨⟨rfl, rfl⟩, merge_no_inputs_after_create allOkDest rfl rfl⟩

/-- A destination environment whose source-writing operations succeed but
whose finalization operations (`Sync`, `Close`) would fail if reached. -/
def noSyncDest : Dest := ⟨true, true, fun _ _ => true, false, false⟩

/-- Witness for C7, both branches: merging the concrete empty source in a
healthy environment processes all sources and ends with sync then close;
merging the concrete failing source aborts during source processing and —
although this environment's sync would fail — the trace shows the
destination was neither synced nor closed. -/
theorem merge_syncs_then_closes_witness :
    (allOkDest.createOk = true ∧ allOkDest.openOk = true ∧ [srcEmpty].length ≠ 0 ∧
      sourcesOk allOkDest [srcEmpty] 0 [] = true ∧
      noSyncDest.createOk = true ∧ noSyncDest.openOk = true ∧
      [srcMissingKey].length ≠ 0 ∧ sourcesOk noSyncDest [srcMissingKey] 0 [] = false) ∧
    (∃ mid, MEvent.syncOut ∉ mid ∧ MEvent.closeOut ∉ mid ∧
      ((allOkDest.syncOk = true →
          (cmdMerge allOkDest [srcEmpty]).trace = mid ++ [.syncOut, .closeOut] ∧
          ((cmdMerge allOkDest [srcEmpty]).res = none ↔ allOkDest.closeOk = true)) ∧
        (allOkDest.syncOk = false →
          (cmdMerge allOkDest [srcEmpty]).trace = mid ++ [.syncOut] ∧
          (cmdMerge allOkDest [srcEmpty]).res.isSome = true))) ∧
    (MEvent.syncOut ∉ (cmdMerge noSyncDest [srcMissingKey]).trace ∧
      MEvent.closeOut ∉ (cmdMerge noSyncDest [srcMissingKey]).trace ∧
      (cmdMerge noSyncDest [srcMissingKey]).res.isSome = true) :=
  ⟨⟨rfl, rfl, by decide, by decide, rfl, rfl, by decide, by decide⟩,
    (merge_syncs_then_closes allOkDest [srcEmpty]).1 rfl rfl (by decide) (by decide),
    (merge_syncs_then_closes noSyncDest [srcMissingKey]).2 rfl rfl (by decide) (by decide)⟩
